import Mathlib

/-!
Verification of the windborne-viewer ingestion / enrichment / risk pipeline.

The JavaScript source is shallowly embedded: JSON field values are modelled by
`RawVal` (tracking JS `undefined` / `null` / finite-number / non-finite
distinctions that the code's `??` chains and `Number.isFinite` checks observe),
machine floating-point numbers are idealised as rationals, and the asynchronous
fetch results are passed in explicitly as outcome values.  Each definition
mirrors one function of the source (`normalizeRow`, `fetchLast24h`,
`angleDelta`, `computeRisk`, `fetchWinds`, `enrichInBatches`, and the
trajectory construction and merge inside `load`).
-/

namespace Windborne

/-- Raw JavaScript field value as seen by the normalizer after JSON parsing.
`missing` is JS `undefined` (absent key), `vnull` is JS `null`, `fin q` is any
value whose `Number(...)` conversion is the finite number `q`, and `nonfin` is
any value whose `Number(...)` conversion is `NaN` or infinite. -/
inductive RawVal where
  | missing
  | vnull
  | fin (q : ℚ)
  | nonfin
deriving DecidableEq

/-- JS nullish coalescing `a ?? b`: take `b` exactly when `a` is nullish. -/
def jsCoalesce : RawVal → RawVal → RawVal
  | .missing, b => b
  | .vnull, b => b
  | .fin q, _ => .fin q
  | .nonfin, _ => .nonfin

/-- JS `Number(...)` conversion followed by the `Number.isFinite` test:
`some q` when the conversion yields the finite number `q`, `none` otherwise.
Note `Number(undefined) = NaN` but `Number(null) = 0`. -/
def jsNumber : RawVal → Option ℚ
  | .missing => none
  | .vnull => some 0
  | .fin q => some q
  | .nonfin => none

/-- Keyed (object-shaped) raw row.  Id-like keys are kept as optional strings
(`none` = key absent or nullish); numeric-like keys are `RawVal`s. -/
structure ObjRow where
  id : Option String := none
  balloon_id : Option String := none
  identifier : Option String := none
  name : Option String := none
  ID : Option String := none
  lat : RawVal := .missing
  latitude : RawVal := .missing
  lon : RawVal := .missing
  lng : RawVal := .missing
  longitude : RawVal := .missing
  ts : RawVal := .missing
  timestamp : RawVal := .missing
  time : RawVal := .missing
deriving DecidableEq

/-- Raw row shape: a keyed record, a positional array, or anything else. -/
inductive Row where
  | obj (o : ObjRow)
  | arr (xs : List RawVal)
  | other
deriving DecidableEq

/-- Canonical normalized point `{id, lat, lon, ts}` (timestamp in seconds). -/
structure Point where
  id : String
  lat : ℚ
  lon : ℚ
  ts : ℚ
deriving DecidableEq

/-- Id fallback chain `row.id ?? row.balloon_id ?? row.identifier ?? row.name
?? row.ID ?? `b${rowIndex}``, followed by `String(id)`. -/
def objIdStr (o : ObjRow) (rowIndex : ℕ) : String :=
  ((((o.id.or o.balloon_id).or o.identifier).or o.name).or o.ID).getD s!"b{rowIndex}"

/-- Latitude extraction `Number(row.lat ?? row.latitude)` with finiteness test. -/
def objLatNum (o : ObjRow) : Option ℚ :=
  jsNumber (jsCoalesce o.lat o.latitude)

/-- Longitude extraction `Number(row.lon ?? row.lng ?? row.longitude)`. -/
def objLonNum (o : ObjRow) : Option ℚ :=
  jsNumber (jsCoalesce (jsCoalesce o.lon o.lng) o.longitude)

/-- Timestamp fallback chain `row.ts ?? row.timestamp ?? row.time ?? null`.
The trailing `?? null` means a record with no time-like key yields JS `null`
here (and `Number(null) = 0` downstream). -/
def objTsRaw (o : ObjRow) : RawVal :=
  jsCoalesce (jsCoalesce (jsCoalesce o.ts o.timestamp) o.time) .vnull

/-- Embedding of `normalizeRow(row, hourIndex, rowIndex)` from
`src/api/windborne/path.js`.  `now` stands for `Math.floor(Date.now()/1000)`. -/
def normalizeRow (now : ℚ) : Row → ℕ → ℕ → Option Point
  | .obj o, hourIndex, rowIndex =>
    let tsVal : ℚ :=
      match jsNumber (objTsRaw o) with
      | some q => q
      | none => now - (hourIndex : ℚ) * 3600
    (match objLatNum o, objLonNum o with
      | some la, some lo =>
        some { id := objIdStr o rowIndex, lat := la, lon := lo, ts := tsVal }
      | _, _ => none)
  | .arr xs, hourIndex, rowIndex =>
    if 2 ≤ xs.length then
      match jsNumber (xs.getD 0 .missing), jsNumber (xs.getD 1 .missing) with
      | some la, some lo =>
        some { id := s!"b{rowIndex}", lat := la, lon := lo,
               ts := now - (hourIndex : ℚ) * 3600 }
      | _, _ => none
    else none
  | .other, _, _ => none

/-! Trajectory builder: per-id `sort((a,b) => a.ts - b.ts)` followed by the
`filter` with a `seen` set of timestamps, from `fetchLast24h`. -/

/-- Stable ascending sort by timestamp, the embedding of
`.sort((a, b) => a.ts - b.ts)` (JS sort is stable). -/
def ptsSort (l : List Point) : List Point :=
  l.mergeSort (fun a b => decide (a.ts ≤ b.ts))

/-- Embedding of the dedupe `filter`: keep a point exactly when its timestamp
is not in the `seen` set, adding kept timestamps to `seen` left to right. -/
def dedupeTs (seen : List ℚ) : List Point → List Point
  | [] => []
  | p :: rest =>
    if p.ts ∈ seen then dedupeTs seen rest
    else p :: dedupeTs (p.ts :: seen) rest

/-- Per-id post-processing of `fetchLast24h`: sort ascending by timestamp,
then drop points whose timestamp was already kept (first occurrence wins). -/
def sortDedupe (l : List Point) : List Point :=
  dedupeTs [] (ptsSort l)

/-! Snapshot fetcher `fetchLast24h`.  The 24 settled promises are passed in as
a list of `FetchOutcome`s (position = hour index). -/

/-- Outcome of one hourly fetch: the promise rejected (network error or
non-success status, which the code turns into a thrown error), fulfilled with
a body that is not an array, or fulfilled with an array of rows. -/
inductive FetchOutcome where
  | rejected
  | nonArray
  | rows (rs : List Row)
deriving DecidableEq

/-- Grouped map `byId`, as an association list in key-insertion order (the JS
object preserves first-insertion order of string keys). -/
abbrev ById := List (String × List Point)

/-- Embedding of `(byId[n.id] ||= []).push(point)`: append to the existing
entry, or create a new entry at the end. -/
def insertPt (m : ById) (i : String) (p : Point) : ById :=
  match m with
  | [] => [(i, [p])]
  | (k, ps) :: rest =>
    if k = i then (k, ps ++ [p]) :: rest else (k, ps) :: insertPt rest i p

/-- Inner `arr.forEach((raw, rowIdx) => ...)` loop of `fetchLast24h`:
normalize each row, count kept rows, and insert accepted points. -/
def rowLoop (now : ℚ) (hourIdx : ℕ) (rowIdx : ℕ) (rs : List Row)
    (m : ById) (kept : ℕ) : ById × ℕ :=
  match rs with
  | [] => (m, kept)
  | r :: rest =>
    match normalizeRow now r hourIdx rowIdx with
    | some p => rowLoop now hourIdx (rowIdx + 1) rest (insertPt m p.id p) (kept + 1)
    | none => rowLoop now hourIdx (rowIdx + 1) rest m kept

/-- Outer `results.forEach((res, hourIdx) => ...)` loop of `fetchLast24h`:
skip non-fulfilled / non-array hours, accumulate `totalRows` and `keptRows`. -/
def fetchLoop (now : ℚ) (hourIdx : ℕ) (results : List FetchOutcome)
    (m : ById) (total kept : ℕ) : ById × ℕ × ℕ :=
  match results with
  | [] => (m, total, kept)
  | o :: rest =>
    match o with
    | .rows rs =>
      let rk := rowLoop now hourIdx 0 rs m kept
      fetchLoop now (hourIdx + 1) rest rk.1 (total + rs.length) rk.2
    | _ => fetchLoop now (hourIdx + 1) rest m total kept

/-- Ingestion statistics `{raw, kept, balloons}`. -/
structure Stats where
  raw : ℕ
  kept : ℕ
  balloons : ℕ
deriving DecidableEq

/-- Result of `fetchLast24h`. -/
structure FetchResult where
  byId : ById
  stats : Stats
deriving DecidableEq

/-- Embedding of `fetchLast24h` given the settled per-hour outcomes: aggregate
rows hour by hour, then sort/dedupe each id's list, and report stats. -/
def fetchLast24h (now : ℚ) (results : List FetchOutcome) : FetchResult :=
  let agg := fetchLoop now 0 results [] 0 0
  { byId := agg.1.map (fun e => (e.1, sortDedupe e.2)),
    stats := { raw := agg.2.1, kept := agg.2.2, balloons := agg.1.length } }

/-! Risk model (`src/lib/risk.js` alias `openmeteo.js`): `angleDelta` and
`computeRisk`. -/

/-- Truncating rational quotient, the rounding JS `%` uses. -/
def qtrunc (q : ℚ) : ℤ := if q < 0 then ⌈q⌉ else ⌊q⌋

/-- JS remainder `x % y` (truncated division remainder). -/
def jsFmod (x y : ℚ) : ℚ := x - y * qtrunc (x / y)

/-- JS `Math.round`: round half toward positive infinity. -/
def jsRound (q : ℚ) : ℤ := ⌊q + 1 / 2⌋

/-- Embedding of `angleDelta(a, b)`: `undefined` when either side is nullish,
else the circular difference `|a - b| % 360` folded into `[0, 180]`. -/
def angleDelta (a b : Option ℚ) : Option ℚ :=
  match a, b with
  | some x, some y =>
    let d := jsFmod |x - y| 360
    some (if 180 < d then 360 - d else d)
  | _, _ => none

/-- Wind shear `Math.abs(wind700 - wind500)`, absent unless both are present. -/
def shearOf (wind700 wind500 : Option ℚ) : Option ℚ :=
  match wind700, wind500 with
  | some w7, some w5 => some |w7 - w5|
  | _, _ => none

/-- Embedding of `computeRisk({driftKmh, headingDeg, dir700, dir500, wind700,
wind500})` from the source: absent when `driftKmh` is nullish, else the
rounded weighted combination of drift, mismatch and shear components. -/
def computeRisk (driftKmh headingDeg dir700 dir500 wind700 wind500 : Option ℚ) :
    Option ℤ :=
  match driftKmh with
  | none => none
  | some drift =>
    let useDir := dir700.or dir500
    let mismatch := angleDelta headingDeg useDir
    let shear := shearOf wind700 wind500
    let d := min (drift / 100) 1
    let m := match mismatch with
      | some mm => min (mm / 90) 1
      | none => 0
    let s := match shear with
      | some sh => min (sh / 30) 1
      | none => 0
    some (jsRound ((4 / 10 * d + 4 / 10 * m + 2 / 10 * s) * 100))

/-- Risk formula exactly as the claim words it:
`round((0.4*min(drift/100,1) + 0.4*m + 0.2*s)*100)` with `m = min(mismatch/90,1)`
(or 0 when mismatch is absent) and `s = min(shear/30,1)` (or 0 when absent). -/
def riskSpec (drift : ℚ) (mismatch shear : Option ℚ) : ℤ :=
  let m := match mismatch with
    | some mm => min (mm / 90) 1
    | none => 0
  let s := match shear with
    | some sh => min (sh / 30) 1
    | none => 0
  jsRound ((4 / 10 * min (drift / 100) 1 + 4 / 10 * m + 2 / 10 * s) * 100)

/-! Kinematics and diagnostics, from the per-trajectory block inside `load`
(`src/App.jsx`).  The floating-point trigonometry of `haversineMeters` and
`bearingDeg` is abstracted as the function parameters `hav` and `bear`. -/

/-- Staleness threshold `STALE_SEC = 60 * 60`. -/
def STALE_SEC : ℚ := 60 * 60

/-- Gap threshold `GAP_KM = 300`. -/
def GAP_KM : ℚ := 300

/-- Derived kinematic fields of one trajectory. -/
structure Kin where
  driftKmh : Option ℚ
  headingDeg : Option ℚ
  ageSec : Option ℚ
  stale : Bool
  gapKm : ℚ
  gap : Bool
deriving DecidableEq

/-- Embedding of the kinematics block of `load`: age and staleness from the
last point, drift / heading / gap from the last two points.  `hav` stands for
`haversineMeters` (meters) and `bear` for `bearingDeg`. -/
def deriveKin (hav bear : Point → Point → ℚ) (now : ℚ) (points : List Point) :
    Kin :=
  let ageSec : Option ℚ :=
    match points.getLast? with
    | some last => some (max 0 (now - last.ts))
    | none => none
  let stale : Bool :=
    match ageSec with
    | some a => decide (STALE_SEC < a)
    | none => false
  match points.reverse with
  | last :: prev :: _ =>
    let distM := hav prev last
    let dtH := max ((last.ts - prev.ts) / 3600) (1 / 1000000)
    { driftKmh := some (distM / 1000 / dtH),
      headingDeg := some (bear prev last),
      ageSec := ageSec, stale := stale,
      gapKm := distM / 1000,
      gap := decide (GAP_KM < distM / 1000) }
  | _ =>
    { driftKmh := none, headingDeg := none, ageSec := ageSec, stale := stale,
      gapKm := 0, gap := false }

/-- Embedding of `fmtAge` (age label formatting); decimal rendering of the
hour case is idealised as round-to-one-decimal on rationals. -/
def fmtAge (sec : Option ℚ) : String :=
  match sec with
  | none => "—"
  | some s =>
    if s < 90 then s!"{jsRound s}s"
    else
      let mins := s / 60
      if mins < 90 then s!"{jsRound mins}m"
      else
        let t := jsRound (mins / 60 * 10)
        s!"{t / 10}.{t % 10}h"

/-- One trajectory as built by phase 1 of `load` (wind and risk fields are
patched in by phase 2). -/
structure Traj where
  id : String
  points : List Point
  driftKmh : Option ℚ
  headingDeg : Option ℚ
  risk : Option ℤ
  wind700 : Option ℚ
  dir700 : Option ℚ
  wind500 : Option ℚ
  dir500 : Option ℚ
  staleFlag : Bool
  ageSec : Option ℚ
  ageLabel : String
  gapKm : ℚ
  gapFlag : Bool
deriving DecidableEq

/-- One entry of the phase-1 `list`: a trajectory with kinematics filled in,
`risk: undefined` and no wind keys. -/
def mkTraj (hav bear : Point → Point → ℚ) (now : ℚ) (i : String)
    (points : List Point) : Traj :=
  let k := deriveKin hav bear now points
  { id := i, points := points, driftKmh := k.driftKmh,
    headingDeg := k.headingDeg, risk := none,
    wind700 := none, dir700 := none, wind500 := none, dir500 := none,
    staleFlag := k.stale, ageSec := k.ageSec, ageLabel := fmtAge k.ageSec,
    gapKm := k.gapKm, gapFlag := k.gap }

/-- Phase 1 of `load`: map `Object.entries(byId)` to the trajectory list. -/
def loadPhase1 (hav bear : Point → Point → ℚ) (now : ℚ) (byId : ById) :
    List Traj :=
  byId.map (fun e => mkTraj hav bear now e.1 e.2)

/-! Wind service client `fetchWinds` (`src/api/openmeteo.js`). -/

/-- Hourly block of the wind service response.  Only the length of `time` is
read; each series is a list of nullable numbers. -/
structure Hourly where
  time : Option (List ℚ) := none
  windspeed_700hPa : Option (List (Option ℚ)) := none
  winddirection_700hPa : Option (List (Option ℚ)) := none
  windspeed_500hPa : Option (List (Option ℚ)) := none
  winddirection_500hPa : Option (List (Option ℚ)) := none
deriving DecidableEq

/-- Parsed wind service response body. -/
structure WindsJson where
  hourly : Option Hourly := none
deriving DecidableEq

/-- Outcome of one wind call: the request threw, the response had a
non-success status, or a body was parsed. -/
inductive WindsOutcome where
  | fetchErr
  | notOk
  | okBody (j : WindsJson)
deriving DecidableEq

/-- Keyed wind result `{wind500, dir500, wind700, dir700}`. -/
structure WindSample where
  wind500 : Option ℚ
  dir500 : Option ℚ
  wind700 : Option ℚ
  dir700 : Option ℚ
deriving DecidableEq

/-- Optional-chain series indexing `j.hourly?.<series>?.[i]`, flattening a
null element to absent. -/
def seriesAt (s : Option (List (Option ℚ))) (i : ℕ) : Option ℚ :=
  (s.bind (fun l => l.get? i)).join

/-- Embedding of `fetchWinds`: `none` stands for the literal empty object
`{}` returned on error, non-success status, or missing/empty `hourly.time`;
otherwise the last entry of each series is read. -/
def fetchWinds (o : WindsOutcome) : Option WindSample :=
  match o with
  | .fetchErr => none
  | .notOk => none
  | .okBody j =>
    let n := ((j.hourly.bind Hourly.time).map List.length).getD 0
    if n = 0 then none
    else
      let i := n - 1
      some { wind500 := seriesAt (j.hourly.bind Hourly.windspeed_500hPa) i,
             dir500 := seriesAt (j.hourly.bind Hourly.winddirection_500hPa) i,
             wind700 := seriesAt (j.hourly.bind Hourly.windspeed_700hPa) i,
             dir700 := seriesAt (j.hourly.bind Hourly.winddirection_700hPa) i }

/-- Property access on a possibly-empty wind result (`{}` has no keys). -/
def sampleWind500 : Option WindSample → Option ℚ
  | none => none
  | some s => s.wind500

/-- Property access for `dir500`. -/
def sampleDir500 : Option WindSample → Option ℚ
  | none => none
  | some s => s.dir500

/-- Property access for `wind700`. -/
def sampleWind700 : Option WindSample → Option ℚ
  | none => none
  | some s => s.wind700

/-- Property access for `dir700`. -/
def sampleDir700 : Option WindSample → Option ℚ
  | none => none
  | some s => s.dir700

/-! Enrichment (`enrichInBatches` and phase 2 of `load`). -/

/-- Enrichment subset bound `ENRICH_SUBSET = 50`. -/
def ENRICH_SUBSET : ℕ := 50

/-- Enrichment batch bound `ENRICH_BATCH = 25`. -/
def ENRICH_BATCH : ℕ := 25

/-- Patch value produced for one trajectory: the JS object
`{ ...winds, risk }` — empty when the trajectory has no points, only a `risk`
key when `winds` was the empty object, or all five keys. -/
inductive Patch where
  | empty
  | riskOnly (risk : Option ℤ)
  | full (winds : WindSample) (risk : Option ℤ)
deriving DecidableEq

/-- Per-trajectory enrichment body from `enrichInBatches`: look at the last
point, call the wind service (`windsOf`, abstracting `fetchWinds` at those
coordinates), and compute the risk from the spread `{...tr, ...winds}`. -/
def enrichOne (windsOf : ℚ → ℚ → Option WindSample) (tr : Traj) :
    String × Patch :=
  match tr.points.getLast? with
  | none => (tr.id, .empty)
  | some last =>
    match windsOf last.lat last.lon with
    | none =>
      (tr.id, .riskOnly (computeRisk tr.driftKmh tr.headingDeg tr.dir700
        tr.dir500 tr.wind700 tr.wind500))
    | some w =>
      (tr.id, .full w (computeRisk tr.driftKmh tr.headingDeg w.dir700 w.dir500
        w.wind700 w.wind500))

/-- Batch slicing of the `for (let i = 0; i < items.length; i += batchSize)`
loop: consecutive `slice(i, i + batchSize)` groups.  (For `b = 0` the JS loop
would never terminate; that case is modelled as producing no batches.) -/
def sliceBatches (b : ℕ) (l : List Traj) : List (List Traj) :=
  if b = 0 then []
  else if h : l = [] then []
  else l.take b :: sliceBatches b (l.drop b)
termination_by l.length
decreasing_by
  simp only [List.length_drop]
  have : 0 < l.length := List.length_pos.mpr h
  omega

/-- Embedding of `enrichInBatches(items, batchSize)`: the concatenation, in
batch order, of each batch's settled `[tr.id, patch]` entries. -/
def enrichInBatches (windsOf : ℚ → ℚ → Option WindSample) (items : List Traj)
    (b : ℕ) : List (String × Patch) :=
  ((sliceBatches b items).map (fun batch => batch.map (enrichOne windsOf))).flatten

/-- Phase-2 subset and batching of `load`:
`enrichInBatches(list.slice(0, ENRICH_SUBSET), ENRICH_BATCH)`. -/
def loadPatchEntries (windsOf : ℚ → ℚ → Option WindSample)
    (tracks : List Traj) : List (String × Patch) :=
  enrichInBatches windsOf (tracks.take ENRICH_SUBSET) ENRICH_BATCH

/-- `Object.fromEntries` lookup: the last entry with the given key wins. -/
def lookupLast (entries : List (String × Patch)) (k : String) : Option Patch :=
  (entries.reverse.find? (fun e => e.1 = k)).map (fun e => e.2)

/-- JS object spread `{...tr, ...patch}`: only the keys present in the patch
are overwritten. -/
def applyPatch (tr : Traj) : Patch → Traj
  | .empty => tr
  | .riskOnly r => { tr with risk := r }
  | .full w r =>
    { tr with wind500 := w.wind500, dir500 := w.dir500,
              wind700 := w.wind700, dir700 := w.dir700, risk := r }

/-- Merge of one trajectory: `{...tr, ...(patch[tr.id] ?? {})}`. -/
def mergeOne (entries : List (String × Patch)) (tr : Traj) : Traj :=
  match lookupLast entries tr.id with
  | some p => applyPatch tr p
  | none => tr

/-- Embedding of the phase-2 merge
`setTracks(prev => prev.map(tr => ({...tr, ...(patch[tr.id] ?? {})})))`. -/
def mergeTracks (entries : List (String × Patch)) (tracks : List Traj) :
    List Traj :=
  tracks.map (mergeOne entries)

/-- Specification-side list of the points accepted by `normalizeRow` in one
hour's row array, with the row index threaded through. -/
def acceptedRows (now : ℚ) (hourIdx : ℕ) : ℕ → List Row → List Point
  | _, [] => []
  | rowIdx, r :: rest =>
    match normalizeRow now r hourIdx rowIdx with
    | some p => p :: acceptedRows now hourIdx (rowIdx + 1) rest
    | none => acceptedRows now hourIdx (rowIdx + 1) rest

/-- Raw-row count contributed by one hour (zero for failed or non-array
hours). -/
def hourRaw : FetchOutcome → ℕ
  | .rows rs => rs.length
  | _ => 0

/-- Accepted points contributed by one hour (empty for failed or non-array
hours). -/
def acceptedOfHour (now : ℚ) (hourIdx : ℕ) : FetchOutcome → List Point
  | .rows rs => acceptedRows now hourIdx 0 rs
  | _ => []

/-- Accepted points of all hours, in hour order. -/
def acceptedAll (now : ℚ) : ℕ → List FetchOutcome → List Point
  | _, [] => []
  | h, o :: rest => acceptedOfHour now h o ++ acceptedAll now (h + 1) rest

/-- Insertion of a list of points into the grouped map, in order. -/
def insertAll (m : ById) (ps : List Point) : ById :=
  ps.foldl (fun acc p => insertPt acc p.id p) m

/-- Keys of the grouped map. -/
def keysOf (m : ById) : List String := m.map Prod.fst

/-- Concrete hourly block used by the wind-client witness. -/
def hourlyC7 : Hourly :=
  { time := some [1, 2], windspeed_700hPa := some [some 4, some 6] }

/-- Concrete response body used by the wind-client witness. -/
def jsonC7 : WindsJson := { hourly := some hourlyC7 }

/-- Concrete trajectory used by the batching witness. -/
def trC8 : Traj :=
  { id := "x", points := [], driftKmh := none, headingDeg := none,
    risk := none, wind700 := none, dir700 := none, wind500 := none,
    dir500 := none, staleFlag := false, ageSec := none, ageLabel := "",
    gapKm := 0, gapFlag := false }

/-- Concrete trajectory used by the merge witness. -/
def trC9 : Traj :=
  { id := "y", points := [], driftKmh := none, headingDeg := none,
    risk := none, wind700 := none, dir700 := none, wind500 := none,
    dir500 := none, staleFlag := false, ageSec := none, ageLabel := "",
    gapKm := 0, gapFlag := false }

/-- Risk field carried by a patch (`none` = the patch has no risk key). -/
def patchRisk : Patch → Option (Option ℤ)
  | .empty => none
  | .riskOnly r => some r
  | .full _ r => some r

/-- Concrete trajectory used by the risk-presence witness. -/
def trC10 : Traj :=
  { id := "w", points := [⟨"w", 1, 2, 3⟩], driftKmh := some 50,
    headingDeg := some 10, risk := none, wind700 := none, dir700 := none,
    wind500 := none, dir500 := none, staleFlag := false, ageSec := some 1,
    ageLabel := "1s", gapKm := 0, gapFlag := false }

/-- Concrete keyed row used by the trajectory-builder witness. -/
def rowC3 : Row := .obj { lat := .fin 1, lon := .fin 2, ts := .fin 5 }

/-- Concrete settled fetch outcomes used by the trajectory-builder witness. -/
def resultsC3 : List FetchOutcome := [.rows [rowC3]]

/-- Concrete normalized point used by the trajectory-builder witness. -/
def ptC3 : Point := { id := "b0", lat := 1, lon := 2, ts := 5 }

/-! Theorems.  First, helper lemmas about the trajectory builder. -/

theorem ptsSort_pairwise (l : List Point) :
    (ptsSort l).Pairwise (fun a b => a.ts ≤ b.ts) := by
  have h := @List.sorted_mergeSort Point (fun a b : Point => decide (a.ts ≤ b.ts))
    (fun a b c hab hbc => by
      simp only [decide_eq_true_eq] at *
      exact le_trans hab hbc)
    (fun a b => by
      simp only [Bool.or_eq_true, decide_eq_true_eq]
      exact le_total a.ts b.ts) l
  simpa using h

theorem ptsSort_perm (l : List Point) : (ptsSort l).Perm l :=
  List.mergeSort_perm l _

theorem dedupeTs_sublist (seen : List ℚ) (l : List Point) :
    (dedupeTs seen l).Sublist l := by
  induction l generalizing seen with
  | nil => simp [dedupeTs]
  | cons p rest ih =>
    simp only [dedupeTs]
    split
    · exact (ih seen).trans (List.sublist_cons_self p rest)
    · exact (ih (p.ts :: seen)).cons₂ p

theorem dedupeTs_ts_nodup (seen : List ℚ) (l : List Point) :
    ((dedupeTs seen l).map Point.ts).Nodup ∧
      ∀ q ∈ (dedupeTs seen l).map Point.ts, q ∉ seen := by
  induction l generalizing seen with
  | nil => simp [dedupeTs]
  | cons p rest ih =>
    simp only [dedupeTs]
    split
    · exact ih seen
    · rename_i hmem
      obtain ⟨ihn, ihs⟩ := ih (p.ts :: seen)
      constructor
      · simp only [List.map_cons, List.nodup_cons]
        exact ⟨fun hq => (ihs _ hq) (List.mem_cons_self _ _), ihn⟩
      · intro q hq
        simp only [List.map_cons, List.mem_cons] at hq
        rcases hq with rfl | hq
        · exact hmem
        · exact fun hs => (ihs q hq) (List.mem_cons_of_mem _ hs)

theorem dedupeTs_mem_ts (seen : List ℚ) (l : List Point) (q : ℚ)
    (hq : q ∉ seen) :
    q ∈ (dedupeTs seen l).map Point.ts ↔ q ∈ l.map Point.ts := by
  induction l generalizing seen with
  | nil => simp [dedupeTs]
  | cons p rest ih =>
    simp only [dedupeTs]
    split
    · rename_i hmem
      rw [ih seen hq]
      simp only [List.map_cons, List.mem_cons]
      constructor
      · exact Or.inr
      · rintro (rfl | hqr)
        · exact absurd hmem hq
        · exact hqr
    · rename_i hmem
      simp only [List.map_cons, List.mem_cons]
      by_cases hpq : q = p.ts
      · subst hpq
        simp
      · have hq2 : q ∉ p.ts :: seen := by
          simp only [List.mem_cons]
          push_neg
          exact ⟨hpq, hq⟩
        rw [ih _ hq2]

theorem dedupeTs_find (seen : List ℚ) (l : List Point) (q : ℚ)
    (hq : q ∉ seen) :
    (dedupeTs seen l).find? (fun p => decide (p.ts = q)) =
      l.find? (fun p => decide (p.ts = q)) := by
  induction l generalizing seen with
  | nil => simp [dedupeTs]
  | cons p rest ih =>
    simp only [dedupeTs]
    split
    · rename_i hmem
      have hpq : ¬ p.ts = q := fun hcontra => hq (hcontra ▸ hmem)
      rw [ih seen hq, List.find?_cons]
      simp [hpq]
    · rename_i hmem
      by_cases hpq : p.ts = q
      · simp [List.find?_cons, hpq]
      · have hq2 : q ∉ p.ts :: seen := by
          simp only [List.mem_cons]
          push_neg
          exact ⟨fun hcontra => hpq hcontra.symm, hq⟩
        rw [List.find?_cons, List.find?_cons, decide_eq_false hpq]
        simpa using ih _ hq2

theorem sortDedupe_ts_strict (l : List Point) :
    ((sortDedupe l).map Point.ts).Pairwise (fun a b => a < b) := by
  have hle : (sortDedupe l).Pairwise (fun a b => a.ts ≤ b.ts) :=
    List.Pairwise.sublist (dedupeTs_sublist [] (ptsSort l)) (ptsSort_pairwise l)
  have hnd := (dedupeTs_ts_nodup [] (ptsSort l)).1
  rw [List.Nodup, List.pairwise_map] at hnd
  rw [List.pairwise_map]
  exact (hle.and hnd).imp (fun hab => lt_of_le_of_ne hab.1 hab.2)

/-- C3: the trajectory builder's per-id pass produces strictly increasing
timestamps with no duplicates; every output is a subsequence of the stable
ascending sort, the set of timestamps is preserved, and for each timestamp the
kept point is the first point with that timestamp in sort order (ties broken
by original, hour-ascending encounter order, since the sort is stable); every
trajectory published by `fetchLast24h` therefore has strictly increasing
timestamps. -/
theorem sortDedupe_spec :
    (∀ l : List Point,
      ((sortDedupe l).map Point.ts).Pairwise (fun a b => a < b) ∧
      (sortDedupe l).Sublist (ptsSort l) ∧
      (∀ q : ℚ, q ∈ (sortDedupe l).map Point.ts ↔ q ∈ l.map Point.ts) ∧
      (∀ q : ℚ, (sortDedupe l).find? (fun p => decide (p.ts = q)) =
        (ptsSort l).find? (fun p => decide (p.ts = q)))) ∧
    ∀ (now : ℚ) (results : List FetchOutcome) (e : String × List Point),
      e ∈ (fetchLast24h now results).byId →
      (e.2.map Point.ts).Pairwise (fun a b => a < b) := by
  constructor
  · intro l
    refine ⟨sortDedupe_ts_strict l, dedupeTs_sublist [] (ptsSort l), ?_, ?_⟩
    · intro q
      rw [sortDedupe, dedupeTs_mem_ts [] (ptsSort l) q (by simp)]
      constructor
      · intro hq
        rcases List.mem_map.mp hq with ⟨p, hp, rfl⟩
        exact List.mem_map_of_mem _ ((ptsSort_perm l).mem_iff.mp hp)
      · intro hq
        rcases List.mem_map.mp hq with ⟨p, hp, rfl⟩
        exact List.mem_map_of_mem _ ((ptsSort_perm l).mem_iff.mpr hp)
    · intro q
      exact dedupeTs_find [] (ptsSort l) q (by simp)
  · intro now results e he
    simp only [fetchLast24h, List.mem_map] at he
    rcases he with ⟨e0, _, rfl⟩
    exact sortDedupe_ts_strict e0.2

/-! Helper specifications and lemmas for the snapshot fetcher. -/

theorem insertAll_append (m : ById) (ps qs : List Point) :
    insertAll m (ps ++ qs) = insertAll (insertAll m ps) qs := by
  simp [insertAll, List.foldl_append]

theorem rowLoop_eq (now : ℚ) (hourIdx : ℕ) (rs : List Row) :
    ∀ (rowIdx : ℕ) (m : ById) (kept : ℕ),
      rowLoop now hourIdx rowIdx rs m kept =
        (insertAll m (acceptedRows now hourIdx rowIdx rs),
          kept + (acceptedRows now hourIdx rowIdx rs).length) := by
  induction rs with
  | nil => intro rowIdx m kept; simp [rowLoop, acceptedRows, insertAll]
  | cons r rest ih =>
    intro rowIdx m kept
    simp only [rowLoop, acceptedRows]
    rcases hn : normalizeRow now r hourIdx rowIdx with _ | p
    · simp [ih]
    · simp only [ih, insertAll, List.foldl_cons, List.length_cons,
        Prod.mk.injEq]
      exact ⟨trivial, by omega⟩

theorem fetchLoop_eq (now : ℚ) (results : List FetchOutcome) :
    ∀ (hourIdx : ℕ) (m : ById) (total kept : ℕ),
      fetchLoop now hourIdx results m total kept =
        (insertAll m (acceptedAll now hourIdx results),
          total + (results.map hourRaw).sum,
          kept + (acceptedAll now hourIdx results).length) := by
  induction results with
  | nil => intro hourIdx m total kept; simp [fetchLoop, acceptedAll, insertAll]
  | cons o rest ih =>
    intro hourIdx m total kept
    rcases o with _ | _ | rs
    · simp [fetchLoop, acceptedAll, acceptedOfHour, hourRaw, ih]
    · simp [fetchLoop, acceptedAll, acceptedOfHour, hourRaw, ih]
    · simp only [fetchLoop, rowLoop_eq, acceptedAll, acceptedOfHour, hourRaw,
        List.map_cons, List.sum_cons, ih, insertAll_append,
        List.length_append, Prod.mk.injEq]
      exact ⟨trivial, by omega, by omega⟩

theorem keysOf_insertPt (m : ById) (i : String) (p : Point) :
    keysOf (insertPt m i p) =
      if i ∈ keysOf m then keysOf m else keysOf m ++ [i] := by
  induction m with
  | nil => simp [keysOf, insertPt]
  | cons e rest ih =>
    simp only [keysOf, insertPt] at *
    by_cases he : e.1 = i
    · subst he
      simp
    · rw [if_neg he]
      have hne : ¬ i = e.1 := fun hcontra => he hcontra.symm
      simp only [List.map_cons, ih, List.mem_cons, hne, false_or]
      by_cases hm : i ∈ rest.map Prod.fst
      · simp [hm]
      · simp [hm]

theorem keysOf_insertAll (m : ById) (ps : List Point) :
    (∀ s, s ∈ keysOf (insertAll m ps) ↔
      s ∈ keysOf m ∨ s ∈ ps.map Point.id) ∧
    ((keysOf m).Nodup → (keysOf (insertAll m ps)).Nodup) := by
  induction ps generalizing m with
  | nil => simp [insertAll]
  | cons p rest ih =>
    have hstep : insertAll m (p :: rest) = insertAll (insertPt m p.id p) rest := by
      simp [insertAll]
    rw [hstep]
    obtain ⟨ihm, ihn⟩ := ih (insertPt m p.id p)
    constructor
    · intro s
      rw [ihm s, keysOf_insertPt]
      by_cases hm : p.id ∈ keysOf m
      · simp only [if_pos hm, List.map_cons, List.mem_cons]
        constructor
        · rintro (hs | hs)
          · exact Or.inl hs
          · exact Or.inr (Or.inr hs)
        · rintro (hs | rfl | hs)
          · exact Or.inl hs
          · exact Or.inl hm
          · exact Or.inr hs
      · simp only [if_neg hm, List.mem_append, List.map_cons, List.mem_cons,
          List.mem_singleton]
        tauto
    · intro hnd
      apply ihn
      rw [keysOf_insertPt]
      by_cases hm : p.id ∈ keysOf m
      · simpa [hm] using hnd
      · simp only [if_neg hm]
        simpa [List.nodup_append] using ⟨hnd, hm⟩

theorem fetchLoop_set_failed (now : ℚ) (results : List FetchOutcome) (i : ℕ)
    (o : FetchOutcome) (ho : o = .rejected ∨ o = .nonArray) :
    ∀ (hourIdx : ℕ) (m : ById) (total kept : ℕ),
      fetchLoop now hourIdx (results.set i o) m total kept =
        fetchLoop now hourIdx (results.set i (.rows [])) m total kept := by
  induction results generalizing i with
  | nil => intro hourIdx m total kept; simp
  | cons hd rest ih =>
    intro hourIdx m total kept
    rcases i with _ | i
    · rcases ho with rfl | rfl <;> simp [fetchLoop, rowLoop]
    · simp only [List.set_cons_succ]
      rcases hd with _ | _ | rs <;> simp [fetchLoop, ih]

theorem fetchLast24h_byId (now : ℚ) (results : List FetchOutcome) :
    (fetchLast24h now results).byId =
      (insertAll [] (acceptedAll now 0 results)).map
        (fun e => (e.1, sortDedupe e.2)) := by
  show ((fetchLoop now 0 results [] 0 0).1.map
    (fun e => (e.1, sortDedupe e.2))) = _
  rw [fetchLoop_eq]

theorem keysOf_byId (now : ℚ) (results : List FetchOutcome) :
    keysOf (fetchLast24h now results).byId =
      keysOf (insertAll [] (acceptedAll now 0 results)) := by
  rw [fetchLast24h_byId]
  simp [keysOf, List.map_map, Function.comp]

/-- C6: per-hour isolation and statistics of the 24-hour fetch.  A failed or
non-array hour contributes exactly what an empty hour contributes (zero rows,
zero points) without affecting any other hour; `raw` sums the row counts of
the successful array-bodied hours, `kept` counts the points accepted by
normalization, and `balloons` is the number of distinct ids in the grouped
map (its keys are distinct and are exactly the accepted ids); an all-failed
cycle yields the normal empty result. -/
theorem fetchLast24h_spec (now : ℚ) (results : List FetchOutcome) :
    (fetchLast24h now results).stats.raw = (results.map hourRaw).sum ∧
    (fetchLast24h now results).stats.kept =
      (acceptedAll now 0 results).length ∧
    (fetchLast24h now results).stats.balloons =
      (keysOf (fetchLast24h now results).byId).length ∧
    (keysOf (fetchLast24h now results).byId).Nodup ∧
    (∀ s, s ∈ keysOf (fetchLast24h now results).byId ↔
      s ∈ (acceptedAll now 0 results).map Point.id) ∧
    (∀ (i : ℕ) (o : FetchOutcome), o = .rejected ∨ o = .nonArray →
      fetchLast24h now (results.set i o) =
        fetchLast24h now (results.set i (.rows []))) ∧
    fetchLast24h now (List.replicate 24 .rejected) =
      { byId := [], stats := { raw := 0, kept := 0, balloons := 0 } } := by
  refine ⟨?_, ?_, ?_, ?_, ?_, ?_, ?_⟩
  · simp [fetchLast24h, fetchLoop_eq]
  · simp [fetchLast24h, fetchLoop_eq]
  · simp [fetchLast24h, keysOf]
  · rw [keysOf_byId]
    exact (keysOf_insertAll [] _).2 (by simp [keysOf])
  · intro s
    rw [keysOf_byId, (keysOf_insertAll [] _).1 s]
    simp [keysOf]
  · intro i o ho
    simp [fetchLast24h, fetchLoop_set_failed now results i o ho]
  · have hrep : ∀ (k n : ℕ) (m : ById) (t kk : ℕ),
        fetchLoop now n (List.replicate k .rejected) m t kk = (m, t, kk) := by
      intro k
      induction k with
      | zero => intro n m t kk; simp [fetchLoop]
      | succ k ihk =>
        intro n m t kk
        rw [List.replicate_succ]
        simp [fetchLoop, ihk]
    have h24 := hrep 24 0 ([] : ById) 0 0
    rw [fetchLast24h, h24]
    rfl

/-! Helper lemmas for the risk model. -/

theorem jsFmod360_bounds (x : ℚ) (hx : 0 ≤ x) :
    0 ≤ jsFmod x 360 ∧ jsFmod x 360 < 360 := by
  have hy : ¬ (x / 360 < 0) := not_lt.mpr (by positivity)
  unfold jsFmod qtrunc
  rw [if_neg hy]
  have h1 : (⌊x / 360⌋ : ℚ) ≤ x / 360 := Int.floor_le _
  have h2 : x / 360 < ⌊x / 360⌋ + 1 := Int.lt_floor_add_one _
  have hx360 : x / 360 * 360 = x := by field_simp
  have h1m : (⌊x / 360⌋ : ℚ) * 360 ≤ x := by
    calc (⌊x / 360⌋ : ℚ) * 360 ≤ x / 360 * 360 :=
          mul_le_mul_of_nonneg_right h1 (by norm_num)
      _ = x := hx360
  have h2m : x < ((⌊x / 360⌋ : ℚ) + 1) * 360 := by
    calc x = x / 360 * 360 := hx360.symm
      _ < ((⌊x / 360⌋ : ℚ) + 1) * 360 := by
          apply mul_lt_mul_of_pos_right h2 (by norm_num)
  constructor <;> nlinarith

theorem angleDelta_bounds (a b : Option ℚ) (m : ℚ)
    (hm : angleDelta a b = some m) : 0 ≤ m ∧ m ≤ 180 := by
  rcases a with _ | x
  · simp [angleDelta] at hm
  rcases b with _ | y
  · simp [angleDelta] at hm
  simp only [angleDelta, Option.some.injEq] at hm
  obtain ⟨h0, h1⟩ := jsFmod360_bounds |x - y| (abs_nonneg _)
  subst hm
  split
  · rename_i hgt
    constructor <;> linarith
  · rename_i hle
    exact ⟨h0, by linarith [not_lt.mp hle]⟩

theorem shearOf_nonneg (w7 w5 : Option ℚ) (s : ℚ)
    (hs : shearOf w7 w5 = some s) : 0 ≤ s := by
  rcases w7 with _ | a
  · simp [shearOf] at hs
  rcases w5 with _ | b
  · simp [shearOf] at hs
  simp only [shearOf, Option.some.injEq] at hs
  subst hs
  exact abs_nonneg _

theorem jsRound_mono {x y : ℚ} (h : x ≤ y) : jsRound x ≤ jsRound y :=
  Int.floor_le_floor (by linarith)

theorem jsRound_bounds {x : ℚ} (h0 : 0 ≤ x) (h1 : x ≤ 100) :
    0 ≤ jsRound x ∧ jsRound x ≤ 100 := by
  unfold jsRound
  constructor
  · exact Int.le_floor.mpr (by push_cast; linarith)
  · have : ⌊x + 1 / 2⌋ < 101 := Int.floor_lt.mpr (by push_cast; linarith)
    omega

theorem computeRisk_eq_riskSpec (dr : ℚ) (h d7 d5 w7 w5 : Option ℚ) :
    computeRisk (some dr) h d7 d5 w7 w5 =
      some (riskSpec dr (angleDelta h (d7.or d5)) (shearOf w7 w5)) := rfl

/-- C4 as stated is false on the code: the drift component
`min(driftKmh/100, 1)` is not clamped below, so a negative drift yields a
risk far below 0 — here `computeRisk` at drift `-1000` (winds and heading
absent) returns `-400`, which is not in `[0, 100]`. -/
theorem computeRisk_out_of_range :
    computeRisk (some (-1000)) none none none none none = some (-400) ∧
    ¬ (0 ≤ (-400 : ℤ)) := by
  constructor
  · show some (riskSpec (-1000) (angleDelta none (Option.or none none))
      (shearOf none none)) = some (-400)
    have hmin : min ((-1000 : ℚ) / 100) 1 = -10 := by
      rw [min_eq_left (by norm_num)]
      norm_num
    simp only [Option.or, angleDelta, shearOf, riskSpec, hmin]
    norm_num [jsRound]
  · norm_num

/-- C4 (amended): `compute_risk` is absent exactly when drift is absent;
when drift is present it equals the claimed rounded formula over the derived
mismatch (preferring the 700 hPa direction) and shear; the result is an
integer in `[0, 100]` for every input with nonnegative drift (negative drift
can push it below 0, as the counterexample shows); and the formula is
monotonically non-decreasing in drift, mismatch, and shear separately. -/
theorem computeRisk_spec :
    (∀ h d7 d5 w7 w5, computeRisk none h d7 d5 w7 w5 = none) ∧
    (∀ dr h d7 d5 w7 w5, computeRisk (some dr) h d7 d5 w7 w5 =
      some (riskSpec dr (angleDelta h (d7.or d5)) (shearOf w7 w5))) ∧
    (∀ dr h d7 d5 w7 w5 r, 0 ≤ dr →
      computeRisk (some dr) h d7 d5 w7 w5 = some r → 0 ≤ r ∧ r ≤ 100) ∧
    (∀ d1 d2 mm sh, d1 ≤ d2 → riskSpec d1 mm sh ≤ riskSpec d2 mm sh) ∧
    (∀ dr m1 m2 sh, m1 ≤ m2 →
      riskSpec dr (some m1) sh ≤ riskSpec dr (some m2) sh) ∧
    (∀ dr mm s1 s2, s1 ≤ s2 →
      riskSpec dr mm (some s1) ≤ riskSpec dr mm (some s2)) := by
  have hm01 : ∀ (mm : Option ℚ),
      (∀ m0, mm = some m0 → 0 ≤ m0) →
      0 ≤ (match mm with | some m0 => min (m0 / 90) 1 | none => (0 : ℚ)) ∧
      (match mm with | some m0 => min (m0 / 90) 1 | none => (0 : ℚ)) ≤ 1 := by
    intro mm hmm
    rcases mm with _ | m0
    · norm_num
    · have h0 := hmm m0 rfl
      exact ⟨le_min (by positivity) (by norm_num), min_le_right _ _⟩
  have hs01 : ∀ (sh : Option ℚ),
      (∀ s0, sh = some s0 → 0 ≤ s0) →
      0 ≤ (match sh with | some s0 => min (s0 / 30) 1 | none => (0 : ℚ)) ∧
      (match sh with | some s0 => min (s0 / 30) 1 | none => (0 : ℚ)) ≤ 1 := by
    intro sh hsh
    rcases sh with _ | s0
    · norm_num
    · have h0 := hsh s0 rfl
      exact ⟨le_min (by positivity) (by norm_num), min_le_right _ _⟩
  refine ⟨fun _ _ _ _ _ => rfl, fun _ _ _ _ _ _ => rfl, ?_, ?_, ?_, ?_⟩
  · intro dr h d7 d5 w7 w5 r hdr hr
    rw [computeRisk_eq_riskSpec, Option.some.injEq] at hr
    subst hr
    unfold riskSpec
    have hd0 : 0 ≤ min (dr / 100) 1 := le_min (by positivity) (by norm_num)
    have hd1 : min (dr / 100) 1 ≤ 1 := min_le_right _ _
    obtain ⟨hm0, hm1⟩ := hm01 _ (fun m0 hm0 => (angleDelta_bounds _ _ _ hm0).1)
    obtain ⟨hs0, hs1⟩ := hs01 _ (fun s0 hsw => shearOf_nonneg _ _ _ hsw)
    exact jsRound_bounds (by nlinarith) (by nlinarith)
  · intro d1 d2 mm sh hd
    unfold riskSpec
    apply jsRound_mono
    have hmin : min (d1 / 100) 1 ≤ min (d2 / 100) 1 :=
      min_le_min (by linarith) le_rfl
    nlinarith [hmin]
  · intro dr m1 m2 sh hm
    unfold riskSpec
    apply jsRound_mono
    have hmin : min (m1 / 90) 1 ≤ min (m2 / 90) 1 :=
      min_le_min (by linarith) le_rfl
    nlinarith [hmin]
  · intro dr mm s1 s2 hs
    unfold riskSpec
    apply jsRound_mono
    have hmin : min (s1 / 30) 1 ≤ min (s2 / 30) 1 :=
      min_le_min (by linarith) le_rfl
    nlinarith [hmin]

/-- Witness for C4 (amended): drift 50 km/h with no wind data yields risk 20,
inside `[0, 100]`. -/
theorem computeRisk_spec_witness :
    (0 : ℚ) ≤ 50 ∧ computeRisk (some 50) none none none none none = some 20 ∧
    0 ≤ (20 : ℤ) ∧ (20 : ℤ) ≤ 100 := by
  have hcalc : computeRisk (some 50) none none none none none = some 20 := by
    show some (riskSpec 50 (angleDelta none (Option.or none none))
      (shearOf none none)) = some 20
    have hmin : min ((50 : ℚ) / 100) 1 = 1 / 2 := by
      rw [min_eq_left (by norm_num)]
      norm_num
    simp only [Option.or, angleDelta, shearOf, riskSpec, hmin]
    norm_num [jsRound]
  have hb := computeRisk_spec.2.2.1 50 none none none none none 20
    (by norm_num) hcalc
  exact ⟨by norm_num, hcalc, hb.1, hb.2⟩

/-- C5: for a non-empty point sequence, the kinematics derivation yields
`age_sec = max(0, now - last.ts)` and `stale` exactly when that age exceeds
3600 s; with at least two points, drift is the last-hop distance in km over
`max(Δt/3600, 1e-6)` hours, heading is the bearing from the previous to the
last point, `gap_km` is the last-hop distance in km and `gap` holds exactly
when it exceeds 300 km; with fewer than two points drift and heading are
absent, `gap_km = 0` and `gap = false`.  The floating-point haversine and
bearing functions are abstracted as the parameters `hav` (meters) and
`bear`. -/
theorem deriveKin_spec (hav bear : Point → Point → ℚ) (now : ℚ)
    (pts : List Point) (hne : pts ≠ []) :
    (deriveKin hav bear now pts).ageSec =
      some (max 0 (now - (pts.getLast hne).ts)) ∧
    ((deriveKin hav bear now pts).stale = true ↔
      STALE_SEC < max 0 (now - (pts.getLast hne).ts)) ∧
    (∀ last prev rest, pts.reverse = last :: prev :: rest →
      (deriveKin hav bear now pts).driftKmh =
        some (hav prev last / 1000 /
          max ((last.ts - prev.ts) / 3600) (1 / 1000000)) ∧
      (deriveKin hav bear now pts).headingDeg = some (bear prev last) ∧
      (deriveKin hav bear now pts).gapKm = hav prev last / 1000 ∧
      ((deriveKin hav bear now pts).gap = true ↔
        GAP_KM < hav prev last / 1000)) ∧
    (pts.length < 2 →
      (deriveKin hav bear now pts).driftKmh = none ∧
      (deriveKin hav bear now pts).headingDeg = none ∧
      (deriveKin hav bear now pts).gapKm = 0 ∧
      (deriveKin hav bear now pts).gap = false) := by
  have hlast : pts.getLast? = some (pts.getLast hne) :=
    List.getLast?_eq_getLast pts hne
  rcases hrev : pts.reverse with _ | ⟨lastp, tail⟩
  · exact absurd (List.reverse_eq_nil_iff.mp hrev) hne
  rcases tail with _ | ⟨prevp, rest⟩
  · refine ⟨?_, ?_, ?_, ?_⟩
    · simp [deriveKin, hrev, hlast]
    · simp [deriveKin, hrev, hlast]
    · intro l2 p2 r2 h2
      simp at h2
    · intro _
      refine ⟨?_, ?_, ?_, ?_⟩ <;> simp [deriveKin, hrev, hlast]
  · have hlen : 2 ≤ pts.length := by
      have := congrArg List.length hrev
      simp at this
      omega
    refine ⟨?_, ?_, ?_, ?_⟩
    · simp [deriveKin, hrev, hlast]
    · simp [deriveKin, hrev, hlast]
    · intro l2 p2 r2 h2
      injection h2 with hl2 htl2
      injection htl2 with hp2 hr2
      subst hl2
      subst hp2
      refine ⟨?_, ?_, ?_, ?_⟩ <;> simp [deriveKin, hrev, hlast]
    · intro hcon
      omega

/-- Witness for C5 at a concrete two-point trajectory with constant geo
functions. -/
theorem deriveKin_spec_witness :
    ([(⟨"a", 0, 0, 3⟩ : Point), ⟨"a", 0, 1, 5⟩] : List Point) ≠ [] ∧
    (deriveKin (fun _ _ => 7000) (fun _ _ => 90) 10
        [⟨"a", 0, 0, 3⟩, ⟨"a", 0, 1, 5⟩]).ageSec = some (max 0 (10 - 5)) := by
  refine ⟨by simp, ?_⟩
  have h := (deriveKin_spec (fun _ _ => 7000) (fun _ _ => 90) 10
    [⟨"a", 0, 0, 3⟩, ⟨"a", 0, 1, 5⟩] (by simp)).1
  simpa using h

/-- C7: the wind lookup returns the empty wind result (all four fields
absent) and never raises when the request throws, the response status is not
successful, or the hourly time series is missing or empty; on success each
field is read from the last entry (index `length(time) - 1`) of its series.
(The embedding is a total function, so no branch can raise.) -/
theorem fetchWinds_spec :
    fetchWinds .fetchErr = none ∧
    fetchWinds .notOk = none ∧
    (∀ w, fetchWinds w = none →
      sampleWind700 (fetchWinds w) = none ∧
      sampleDir700 (fetchWinds w) = none ∧
      sampleWind500 (fetchWinds w) = none ∧
      sampleDir500 (fetchWinds w) = none) ∧
    (∀ j : WindsJson, j.hourly = none → fetchWinds (.okBody j) = none) ∧
    (∀ (j : WindsJson) (hr : Hourly), j.hourly = some hr → hr.time = none →
      fetchWinds (.okBody j) = none) ∧
    (∀ (j : WindsJson) (hr : Hourly), j.hourly = some hr → hr.time = some [] →
      fetchWinds (.okBody j) = none) ∧
    (∀ (j : WindsJson) (hr : Hourly) (times : List ℚ), j.hourly = some hr →
      hr.time = some times → times ≠ [] →
      fetchWinds (.okBody j) = some
        { wind500 := seriesAt hr.windspeed_500hPa (times.length - 1),
          dir500 := seriesAt hr.winddirection_500hPa (times.length - 1),
          wind700 := seriesAt hr.windspeed_700hPa (times.length - 1),
          dir700 := seriesAt hr.winddirection_700hPa (times.length - 1) }) := by
  refine ⟨rfl, rfl, ?_, ?_, ?_, ?_, ?_⟩
  · intro w hw
    rw [hw]
    exact ⟨rfl, rfl, rfl, rfl⟩
  · intro j hj
    simp [fetchWinds, hj]
  · intro j hr hj ht
    simp [fetchWinds, hj, ht]
  · intro j hr hj ht
    simp [fetchWinds, hj, ht]
  · intro j hr times hj ht hne
    have hlen : ((j.hourly.bind Hourly.time).map List.length).getD 0 =
        times.length := by
      simp [hj, ht]
    have hpos : times.length ≠ 0 := fun hcon =>
      hne (List.length_eq_zero.mp hcon)
    simp only [fetchWinds, hlen, hpos, if_false, hj, Option.bind_some]
    simp [ht, hpos]

/-- Witness for C7: a body whose series have two entries is read at index 1. -/
theorem fetchWinds_spec_witness :
    jsonC7.hourly = some hourlyC7 ∧ hourlyC7.time = some [1, 2] ∧
    fetchWinds (.okBody jsonC7) =
      some { wind500 := none, dir500 := none, wind700 := some 6,
             dir700 := none } := by
  refine ⟨rfl, rfl, ?_⟩
  have h := fetchWinds_spec.2.2.2.2.2.2 jsonC7 hourlyC7 [1, 2] rfl rfl (by simp)
  rw [h]
  rfl

/-! Helper lemmas for the enrichment batching. -/

theorem sliceBatches_nil (b : ℕ) : sliceBatches b [] = [] := by
  rw [sliceBatches]
  simp

theorem sliceBatches_cons (b : ℕ) (hb : b ≠ 0) (l : List Traj) (hl : l ≠ []) :
    sliceBatches b l = l.take b :: sliceBatches b (l.drop b) := by
  rw [sliceBatches]
  simp [hb, hl]

theorem sliceBatches_flatten (b : ℕ) (hb : 0 < b) (l : List Traj) :
    (sliceBatches b l).flatten = l := by
  have H : ∀ (n : ℕ) (l2 : List Traj), l2.length ≤ n →
      (sliceBatches b l2).flatten = l2 := by
    intro n
    induction n with
    | zero =>
      intro l2 hl2
      have hnil : l2 = [] := List.length_eq_zero.mp (Nat.le_zero.mp hl2)
      subst hnil
      simp [sliceBatches_nil]
    | succ n ih =>
      intro l2 hl2
      by_cases hnil : l2 = []
      · subst hnil
        simp [sliceBatches_nil]
      · have hpos : 0 < l2.length := List.length_pos.mpr hnil
        have hdrop : (l2.drop b).length ≤ n := by
          simp only [List.length_drop]
          omega
        rw [sliceBatches_cons b hb.ne' l2 hnil, List.flatten_cons,
          ih _ hdrop, List.take_append_drop]
  exact H l.length l le_rfl

theorem sliceBatches_length (b : ℕ) (hb : 0 < b) (l : List Traj) :
    (sliceBatches b l).length = (l.length + b - 1) / b := by
  have H : ∀ (n : ℕ) (l2 : List Traj), l2.length ≤ n →
      (sliceBatches b l2).length = (l2.length + b - 1) / b := by
    intro n
    induction n with
    | zero =>
      intro l2 hl2
      have hnil : l2 = [] := List.length_eq_zero.mp (Nat.le_zero.mp hl2)
      subst hnil
      simp [sliceBatches_nil, Nat.div_eq_of_lt (show b - 1 < b by omega)]
    | succ n ih =>
      intro l2 hl2
      by_cases hnil : l2 = []
      · subst hnil
        simp [sliceBatches_nil, Nat.div_eq_of_lt (show b - 1 < b by omega)]
      · have hpos : 0 < l2.length := List.length_pos.mpr hnil
        have hdrop : (l2.drop b).length ≤ n := by
          simp only [List.length_drop]
          omega
        rw [sliceBatches_cons b hb.ne' l2 hnil, List.length_cons, ih _ hdrop,
          List.length_drop]
        by_cases hk : l2.length ≤ b
        · have hz : l2.length - b = 0 := by omega
          rw [hz]
          have hl0 : (0 + b - 1) / b = 0 := Nat.div_eq_of_lt (by omega)
          have hl1 : (l2.length + b - 1) / b = 1 :=
            Nat.div_eq_of_lt_le (by omega) (by omega)
          omega
        · have hsub : l2.length - b + b - 1 = l2.length - 1 := by omega
          have hadd : l2.length + b - 1 = (l2.length - 1) + b := by omega
          rw [hsub, hadd, Nat.add_div_right _ hb]
  exact H l.length l le_rfl

theorem sliceBatches_get (b : ℕ) (hb : 0 < b) (l : List Traj) (i : ℕ)
    (bt : List Traj) (hget : (sliceBatches b l).get? i = some bt) :
    bt = (l.drop (b * i)).take b := by
  have H : ∀ (n : ℕ) (l2 : List Traj) (i2 : ℕ) (bt2 : List Traj),
      l2.length ≤ n → (sliceBatches b l2).get? i2 = some bt2 →
      bt2 = (l2.drop (b * i2)).take b := by
    intro n
    induction n with
    | zero =>
      intro l2 i2 bt2 hl2 hg
      have hnil : l2 = [] := List.length_eq_zero.mp (Nat.le_zero.mp hl2)
      subst hnil
      rw [sliceBatches_nil] at hg
      simp at hg
    | succ n ih =>
      intro l2 i2 bt2 hl2 hg
      by_cases hnil : l2 = []
      · subst hnil
        rw [sliceBatches_nil] at hg
        simp at hg
      · have hpos : 0 < l2.length := List.length_pos.mpr hnil
        have hdrop : (l2.drop b).length ≤ n := by
          simp only [List.length_drop]
          omega
        rw [sliceBatches_cons b hb.ne' l2 hnil] at hg
        rcases i2 with _ | i2
        · simp only [List.get?_cons_zero, Option.some.injEq] at hg
          subst hg
          simp
        · simp only [List.get?_cons_succ] at hg
          have hbt := ih _ _ _ hdrop hg
          rw [hbt, List.drop_drop]
          congr 2
          rw [Nat.mul_succ]
          exact Nat.add_comm b (b * i2)
  exact H l.length l i bt le_rfl hget

/-- C8: enrichment selects exactly the first `ENRICH_SUBSET` trajectories in
build order and processes them as the consecutive `slice(i, i + batchSize)`
groups of the batching loop, in order: the groups concatenate back to the
subset, there are `ceil(n / batchSize)` of them, group `i` is exactly
`subset.drop (batchSize*i) |>.take batchSize` (so all groups are full except
a final remainder group), and a 10-element subset with batch size 4 yields
groups of sizes 4, 4, 2.  The settle barrier between groups
(`await Promise.allSettled`) is modelled by the sequential fold over the
group list. -/
theorem enrichInBatches_spec :
    (∀ windsOf tracks, loadPatchEntries windsOf tracks =
      ((sliceBatches ENRICH_BATCH (tracks.take ENRICH_SUBSET)).map
        (fun batch => batch.map (enrichOne windsOf))).flatten) ∧
    (∀ b : ℕ, 0 < b → ∀ l : List Traj, (sliceBatches b l).flatten = l) ∧
    (∀ b : ℕ, 0 < b → ∀ l : List Traj,
      (sliceBatches b l).length = (l.length + b - 1) / b) ∧
    (∀ b : ℕ, 0 < b → ∀ (l : List Traj) (i : ℕ) (bt : List Traj),
      (sliceBatches b l).get? i = some bt → bt = (l.drop (b * i)).take b) ∧
    (∀ l : List Traj, l.length = 10 →
      (sliceBatches 4 l).map List.length = [4, 4, 2]) := by
  refine ⟨fun _ _ => rfl, sliceBatches_flatten, sliceBatches_length,
    sliceBatches_get, ?_⟩
  intro l hl
  have h1 : l ≠ [] := by
    intro hcontra
    subst hcontra
    simp at hl
  have hd1 : (l.drop 4).length = 6 := by simp [hl]
  have h2 : l.drop 4 ≠ [] := by
    intro hcontra
    rw [hcontra] at hd1
    simp at hd1
  have hd2 : ((l.drop 4).drop 4).length = 2 := by simp [hl]
  have h3 : (l.drop 4).drop 4 ≠ [] := by
    intro hcontra
    rw [hcontra] at hd2
    simp at hd2
  have hd3 : (((l.drop 4).drop 4).drop 4).length = 0 := by simp [hl]
  have h4 : ((l.drop 4).drop 4).drop 4 = [] := List.length_eq_zero.mp hd3
  rw [sliceBatches_cons 4 (by norm_num) l h1,
    sliceBatches_cons 4 (by norm_num) _ h2,
    sliceBatches_cons 4 (by norm_num) _ h3, h4, sliceBatches_nil]
  simp [List.length_take, hl]

/-- Witness for C8: ten trajectories with batch size 4 give groups 4, 4, 2. -/
theorem enrichInBatches_spec_witness :
    (List.replicate 10 trC8).length = 10 ∧
    (sliceBatches 4 (List.replicate 10 trC8)).map List.length = [4, 4, 2] :=
  ⟨by simp, enrichInBatches_spec.2.2.2.2 _ (by simp)⟩

/-! Helper lemmas for the enrichment merge. -/

theorem enrichOne_key (windsOf : ℚ → ℚ → Option WindSample) (tr : Traj) :
    (enrichOne windsOf tr).1 = tr.id := by
  unfold enrichOne
  rcases hlp : tr.points.getLast? with _ | lastp
  · rfl
  · dsimp only
    rcases hw : windsOf lastp.lat lastp.lon with _ | w <;> rfl

theorem enrichInBatches_keys (windsOf : ℚ → ℚ → Option WindSample)
    (items : List Traj) (b : ℕ) (hb : 0 < b) (e : String × Patch)
    (he : e ∈ enrichInBatches windsOf items b) : e.1 ∈ items.map Traj.id := by
  unfold enrichInBatches at he
  rw [List.mem_flatten] at he
  rcases he with ⟨bl, hbl, hebl⟩
  rw [List.mem_map] at hbl
  rcases hbl with ⟨batch, hbatch, rfl⟩
  rw [List.mem_map] at hebl
  rcases hebl with ⟨tr, htr, rfl⟩
  have htri : tr ∈ items := by
    rw [← sliceBatches_flatten b hb items]
    exact List.mem_flatten.mpr ⟨batch, hbatch, htr⟩
  rw [enrichOne_key]
  exact List.mem_map_of_mem _ htri

theorem lookupLast_eq_none (entries : List (String × Patch)) (k : String)
    (h : ∀ e ∈ entries, e.1 ≠ k) : lookupLast entries k = none := by
  unfold lookupLast
  rw [List.find?_eq_none.mpr]
  · rfl
  · intro e he
    simp [h e (List.mem_reverse.mp he)]

theorem map_fixed_of_eq (f : Traj → Traj) (l : List Traj)
    (h : ∀ x ∈ l, f x = x) : l.map f = l := by
  induction l with
  | nil => rfl
  | cons x rest ih =>
    rw [List.map_cons, h x (List.mem_cons_self x rest),
      ih (fun y hy => h y (List.mem_cons_of_mem x hy))]

/-- C9: the merge is keyed by id.  A trajectory whose id is absent from the
enrichment entries is returned unchanged; a patch never touches any field
other than the four wind fields and `risk` (id, points, drift, heading,
staleness, age, age label and gap fields are preserved); consequently, when
trajectory ids are distinct, every trajectory outside the first
`ENRICH_SUBSET` is unchanged by the whole phase-2 merge. -/
theorem mergeTracks_spec :
    (∀ entries tr, (∀ e ∈ entries, e.1 ≠ tr.id) → mergeOne entries tr = tr) ∧
    (∀ tr p, (applyPatch tr p).id = tr.id ∧
      (applyPatch tr p).points = tr.points ∧
      (applyPatch tr p).driftKmh = tr.driftKmh ∧
      (applyPatch tr p).headingDeg = tr.headingDeg ∧
      (applyPatch tr p).staleFlag = tr.staleFlag ∧
      (applyPatch tr p).ageSec = tr.ageSec ∧
      (applyPatch tr p).ageLabel = tr.ageLabel ∧
      (applyPatch tr p).gapKm = tr.gapKm ∧
      (applyPatch tr p).gapFlag = tr.gapFlag) ∧
    (∀ windsOf tracks, (tracks.map Traj.id).Nodup →
      (mergeTracks (loadPatchEntries windsOf tracks) tracks).drop
        ENRICH_SUBSET = tracks.drop ENRICH_SUBSET) := by
  refine ⟨?_, ?_, ?_⟩
  · intro entries tr h
    unfold mergeOne
    rw [lookupLast_eq_none entries tr.id h]
  · intro tr p
    rcases p with _ | r | ⟨w, r⟩ <;>
      exact ⟨rfl, rfl, rfl, rfl, rfl, rfl, rfl, rfl, rfl⟩
  · intro windsOf tracks hnd
    unfold mergeTracks
    rw [← List.map_drop]
    apply map_fixed_of_eq
    intro tr htr
    unfold mergeOne
    rw [lookupLast_eq_none]
    intro e he
    have hkey : e.1 ∈ (tracks.take ENRICH_SUBSET).map Traj.id :=
      enrichInBatches_keys windsOf _ ENRICH_BATCH (by norm_num [ENRICH_BATCH])
        e he
    have htrid : tr.id ∈ (tracks.drop ENRICH_SUBSET).map Traj.id :=
      List.mem_map_of_mem _ htr
    have hsplit : (tracks.take ENRICH_SUBSET).map Traj.id ++
        (tracks.drop ENRICH_SUBSET).map Traj.id = tracks.map Traj.id := by
      rw [List.map_take, List.map_drop, List.take_append_drop]
    have hdisj : ((tracks.take ENRICH_SUBSET).map Traj.id).Disjoint
        ((tracks.drop ENRICH_SUBSET).map Traj.id) :=
      List.disjoint_of_nodup_append (by rw [hsplit]; exact hnd)
    exact fun hcontra => hdisj hkey (hcontra ▸ htrid)

/-- Witness for C9: with no matching entry the merge returns the trajectory
unchanged. -/
theorem mergeTracks_spec_witness :
    (∀ e ∈ ([(("z", Patch.empty))] : List (String × Patch)), e.1 ≠ trC9.id) ∧
    mergeOne [("z", Patch.empty)] trC9 = trC9 := by
  have hne : ∀ e ∈ ([(("z", Patch.empty))] : List (String × Patch)),
      e.1 ≠ trC9.id := by
    intro e he
    simp only [List.mem_singleton] at he
    subst he
    simp [trC9]
  exact ⟨hne, mergeTracks_spec.1 [("z", Patch.empty)] trC9 hne⟩

/-- C10: for a trajectory with at least one point and a present drift, the
enrichment entry always carries a present numeric risk — in particular when
the wind call fails (returns the empty object) and the trajectory's own wind
fields are absent (as in phase 1), the patch is exactly
`{risk: round(40*min(drift/100, 1))}` with no wind keys; only a trajectory
with no points yields a patch without a risk key, and an absent drift yields
an absent risk value. -/
theorem enrichOne_risk_present (windsOf : ℚ → ℚ → Option WindSample)
    (tr : Traj) (lastp : Point) (hl : tr.points.getLast? = some lastp)
    (dr : ℚ) (hdr : tr.driftKmh = some dr) :
    ((enrichOne windsOf tr).1 = tr.id ∧
      ∃ p, enrichOne windsOf tr = (tr.id, p) ∧
        ∃ rv : ℤ, patchRisk p = some (some rv)) ∧
    (windsOf lastp.lat lastp.lon = none →
      tr.wind700 = none → tr.wind500 = none → tr.dir700 = none →
      tr.dir500 = none →
      enrichOne windsOf tr =
        (tr.id, .riskOnly (some (jsRound (40 * min (dr / 100) 1))))) ∧
    (∀ tr2 : Traj, tr2.points = [] →
      enrichOne windsOf tr2 = (tr2.id, .empty)) := by
  refine ⟨?_, ?_, ?_⟩
  · refine ⟨enrichOne_key windsOf tr, ?_⟩
    unfold enrichOne
    rw [hl]
    dsimp only
    rcases hw : windsOf lastp.lat lastp.lon with _ | w
    · rw [hdr, computeRisk_eq_riskSpec]
      exact ⟨_, rfl, _, rfl⟩
    · rw [hdr, computeRisk_eq_riskSpec]
      exact ⟨_, rfl, _, rfl⟩
  · intro hw h7 h5 hd7 hd5
    unfold enrichOne
    rw [hl]
    dsimp only
    rw [hw, hdr, h7, h5, hd7, hd5]
    have hrisk : computeRisk (some dr) tr.headingDeg none none none none =
        some (jsRound (40 * min (dr / 100) 1)) := by
      rw [computeRisk_eq_riskSpec]
      have hmm : angleDelta tr.headingDeg (Option.or none none) = none := by
        rcases tr.headingDeg with _ | hd <;> rfl
      rw [hmm]
      unfold riskSpec shearOf
      congr 1
      ring_nf
    rw [hrisk]
  · intro tr2 h2
    unfold enrichOne
    rw [h2]
    rfl

/-- Witness for C10: a failed wind call still produces a present risk for a
drifting trajectory. -/
theorem enrichOne_risk_present_witness :
    trC10.points.getLast? = some ⟨"w", 1, 2, 3⟩ ∧
    trC10.driftKmh = some 50 ∧
    enrichOne (fun _ _ => none) trC10 =
      (trC10.id, .riskOnly (some (jsRound (40 * min ((50 : ℚ) / 100) 1)))) := by
  refine ⟨rfl, rfl, ?_⟩
  exact (enrichOne_risk_present (fun _ _ => none) trC10 ⟨"w", 1, 2, 3⟩ rfl 50
    rfl).2.1 rfl rfl rfl rfl rfl

/-- Witness for C3 on a concrete ingestion: a single keyed row is published
as one trajectory whose timestamps are strictly increasing. -/
theorem sortDedupe_spec_witness :
    (("b0", [ptC3]) : String × List Point) ∈ (fetchLast24h 0 resultsC3).byId ∧
    (([ptC3] : List Point).map Point.ts).Pairwise (fun a b => a < b) := by
  have hmem : (("b0", [ptC3]) : String × List Point) ∈
      (fetchLast24h 0 resultsC3).byId := by
    simp [fetchLast24h, fetchLoop, rowLoop, normalizeRow, objLatNum, objLonNum,
      objTsRaw, objIdStr, jsCoalesce, jsNumber, insertPt, sortDedupe, ptsSort,
      dedupeTs, resultsC3, rowC3, ptC3]
    decide
  exact ⟨hmem, sortDedupe_spec.2 0 resultsC3 _ hmem⟩

/-- C1 as stated is false on the code: `normalizeRow` tests only
`Number.isFinite` and performs no range check, so a keyed row with the finite
out-of-range latitude 200 is accepted and stored with `lat = 200 > 90`. -/
theorem normalizeRow_accepts_out_of_range :
    normalizeRow 0 (.obj { lat := .fin 200, lon := .fin 0 }) 0 0 =
      some { id := "b0", lat := 200, lon := 0, ts := 0 } ∧
    ¬ ((200 : ℚ) ≤ 90) := by
  refine ⟨rfl, by norm_num⟩

/-- C1 (amended): for every raw row, normalization accepts exactly the rows
whose latitude and longitude parse to finite numbers — whenever both parse
(range-checked or not, so finite out-of-range coordinates included), the row
is accepted and the point stores exactly the parsed values with the id and
timestamp the code computes; rows with non-finite latitude or longitude,
short positional rows, and non-object non-array rows are rejected.  No
latitude/longitude range check is performed anywhere. -/
theorem normalizeRow_finite_accept (now : ℚ) (h r : ℕ) :
    (∀ o p, normalizeRow now (.obj o) h r = some p →
      objLatNum o = some p.lat ∧ objLonNum o = some p.lon) ∧
    (∀ o, objLatNum o = none ∨ objLonNum o = none →
      normalizeRow now (.obj o) h r = none) ∧
    (∀ xs p, normalizeRow now (.arr xs) h r = some p →
      2 ≤ xs.length ∧ jsNumber (xs.getD 0 .missing) = some p.lat ∧
        jsNumber (xs.getD 1 .missing) = some p.lon) ∧
    (∀ xs, jsNumber (xs.getD 0 .missing) = none ∨
        jsNumber (xs.getD 1 .missing) = none ∨ xs.length < 2 →
      normalizeRow now (.arr xs) h r = none) ∧
    (∀ o la lo, objLatNum o = some la → objLonNum o = some lo →
      normalizeRow now (.obj o) h r =
        some { id := objIdStr o r, lat := la, lon := lo,
               ts := match jsNumber (objTsRaw o) with
                 | some q => q
                 | none => now - (h : ℚ) * 3600 }) ∧
    (∀ xs la lo, 2 ≤ xs.length → jsNumber (xs.getD 0 .missing) = some la →
      jsNumber (xs.getD 1 .missing) = some lo →
      normalizeRow now (.arr xs) h r =
        some { id := s!"b{r}", lat := la, lon := lo,
               ts := now - (h : ℚ) * 3600 }) ∧
    normalizeRow now .other h r = none := by
  refine ⟨?_, ?_, ?_, ?_, ?_, ?_, rfl⟩
  · intro o p hp
    unfold normalizeRow at hp
    rcases hla : objLatNum o with _ | la <;> rcases hlo : objLonNum o with _ | lo <;>
      simp [hla, hlo] at hp
    rcases hp with ⟨rfl, _⟩
    simp_all
  · intro o ho
    unfold normalizeRow
    rcases ho with ho | ho <;> simp [ho]
  · intro xs p hp
    simp only [normalizeRow] at hp
    split at hp
    · split at hp
      · cases hp
        refine ⟨by assumption, by simp_all, by simp_all⟩
      · exact absurd hp (by simp)
    · exact absurd hp (by simp)
  · intro xs hxs
    simp only [normalizeRow]
    split
    · split
      · rename_i la lo hla hlo
        rcases hxs with hxs | hxs | hxs
        · rw [hxs] at hla; exact absurd hla (by simp)
        · rw [hxs] at hlo; exact absurd hlo (by simp)
        · omega
      · rfl
    · rfl
  · intro o la lo hla hlo
    simp only [normalizeRow]
    rw [hla, hlo]
  · intro xs la lo hlen hla hlo
    simp only [normalizeRow]
    rw [if_pos hlen, hla, hlo]

/-- Witness for C1 (amended): a keyed row whose latitude parses to `NaN` is
rejected, while a keyed row with the finite out-of-range coordinates
`lat = 200, lon = 7` is accepted and stored with exactly those values. -/
theorem normalizeRow_finite_accept_witness :
    (objLatNum { lat := .nonfin } = none ∨
      objLonNum { lat := .nonfin } = none) ∧
    normalizeRow 0 (.obj { lat := .nonfin }) 0 0 = none ∧
    objLatNum { lat := .fin 200, lon := .fin 7 } = some 200 ∧
    objLonNum { lat := .fin 200, lon := .fin 7 } = some 7 ∧
    normalizeRow 0 (.obj { lat := .fin 200, lon := .fin 7 }) 0 0 =
      some { id := "b0", lat := 200, lon := 7, ts := 0 } :=
  ⟨Or.inl rfl, (normalizeRow_finite_accept 0 0 0).2.1 _ (Or.inl rfl), rfl, rfl,
    ((normalizeRow_finite_accept 0 0 0).2.2.2.2.1
      { lat := .fin 200, lon := .fin 7 } 200 7 rfl rfl).trans rfl⟩

/-- C2 is right about the intent but wrong about the code: the timestamp
fallback chain ends in `?? null` and `Number(null) = 0` is finite, so a keyed
record carrying no time-like key gets `ts = 0`, not `now - hour_index*3600`
(here `now = 1700000000`, `hour_index = 3`; the synthesized value would be
`1700000000 - 10800 ≠ 0`).  This contradicts the code's own comment
"synthesizes id/ts when missing". -/
theorem normalizeRow_missing_ts_is_zero :
    normalizeRow 1700000000 (.obj { lat := .fin 10, lon := .fin 20 }) 3 0 =
      some { id := "b0", lat := 10, lon := 20, ts := 0 } ∧
    (1700000000 : ℚ) - 3 * 3600 ≠ 0 := by
  refine ⟨rfl, by norm_num⟩

/-- Witness for C6: replacing a successful empty hour by a rejected one
leaves the cycle's result unchanged. -/
theorem fetchLast24h_spec_witness :
    (FetchOutcome.rejected = FetchOutcome.rejected ∨
      FetchOutcome.rejected = FetchOutcome.nonArray) ∧
    fetchLast24h 0 ([FetchOutcome.rows []].set 0 .rejected) =
      fetchLast24h 0 ([FetchOutcome.rows []].set 0 (.rows [])) :=
  ⟨Or.inl rfl,
    (fetchLast24h_spec 0 [FetchOutcome.rows []]).2.2.2.2.2.1 0 .rejected
      (Or.inl rfl)⟩

end Windborne

